import Mathlib

/-!
Verification of the LISS4 radiometric-correction notebook pipeline and the
metadata parser of the python-tutorials repository, as a shallow embedding.

Strings are embedded as lists of characters.  The metadata parser embeds the
notebook loop

  for line in f:
    key, value = line.split('=')
    metadata[key.strip()] = value.strip()

Python str.split with an explicit separator splits at every occurrence of the
separator, and the two-variable unpacking raises ValueError unless the split
produced exactly two parts, i.e. unless the line contains exactly one
separator character.  Failure of the loop body is embedded as an Option
returning none for the whole parse, since the uncaught exception aborts the
script before the mapping is ever consumed.
-/

/-- Strings of the Python program, embedded as lists of characters. -/
abbrev Str := List Char

/-- The whitespace characters removed by Python str.strip with no argument
(restricted to the ASCII whitespace characters). -/
def isSpaceChar (c : Char) : Bool :=
  (c == ' ') || (c == '\t') || (c == '\n') || (c == '\r') || (c == '\x0b') || (c == '\x0c')

/-- Left part of Python str.strip: drop leading whitespace. -/
def lstrip (s : Str) : Str := s.dropWhile isSpaceChar

/-- Right part of Python str.strip: drop trailing whitespace. -/
def rstrip (s : Str) : Str := (s.reverse.dropWhile isSpaceChar).reverse

/-- Python str.strip with no argument: drop leading and trailing whitespace. -/
def strip (s : Str) : Str := rstrip (lstrip s)

/-- Python str.split with a one-character separator: split at every
occurrence of the separator.  The empty string yields one empty part. -/
def splitOnChar (sep : Char) : Str → List Str
  | [] => [[]]
  | c :: rest =>
    if c = sep then
      [] :: splitOnChar sep rest
    else
      match splitOnChar sep rest with
      | [] => [[c]]
      | h :: t => (c :: h) :: t

/-- Number of occurrences of a character in a string. -/
def countChar (sep : Char) : Str → Nat
  | [] => 0
  | c :: rest => (if c = sep then 1 else 0) + countChar sep rest

/-- One iteration of the parsing loop body:
key, value = line.split('=') followed by stripping both parts.  The
two-variable unpacking succeeds only when the split yields exactly two
parts; any other shape raises, embedded as none. -/
def parseLine (line : Str) : Option (Str × Str) :=
  match splitOnChar '=' line with
  | [k, v] => some (strip k, strip v)
  | _ => none

/-- Python dict assignment metadata[key] = value: update the binding in
place when the key is present, append it otherwise. -/
def dictInsert (m : List (Str × Str)) (k v : Str) : List (Str × Str) :=
  match m with
  | [] => [(k, v)]
  | (k0, v0) :: rest =>
    if k0 = k then (k0, v) :: rest else (k0, v0) :: dictInsert rest k v

/-- Python dict lookup metadata[key]. -/
def dictGet (m : List (Str × Str)) (k : Str) : Option Str :=
  match m with
  | [] => none
  | (k0, v0) :: rest => if k0 = k then some v0 else dictGet rest k

/-- The parsing loop over the lines of the metadata file, carrying the
dictionary built so far; a failing line aborts the whole parse. -/
def parseMetadataAux : List (Str × Str) → List Str → Option (List (Str × Str))
  | m, [] => some m
  | m, line :: rest =>
    match parseLine line with
    | none => none
    | some kv => parseMetadataAux (dictInsert m kv.1 kv.2) rest

/-- The whole metadata parsing cell: fold the loop body over all lines,
starting from the empty dictionary. -/
def parseMetadata (lines : List Str) : Option (List (Str × Str)) :=
  parseMetadataAux [] lines

/-- Turn the result of a search for a key into its value, with a fallback
when the key was not found. -/
def getFrom (found : Option (Str × Str)) (fallback : Option Str) : Option Str :=
  match found with
  | some q => some q.2
  | none => fallback

/-- The value of the textually last line carrying the given key, specified
independently of the dictionary: search the parsed lines from the end. -/
def lastVal (lines : List Str) (k : Str) : Option Str :=
  getFrom (List.find? (fun q => decide (q.1 = k)) (lines.filterMap parseLine).reverse) none

/-- All characters of a string are whitespace. -/
abbrev allSpace (w : Str) : Prop := ∀ c ∈ w, isSpaceChar c = true

/-!
Shallow embedding of the radiometric-correction arithmetic.  An xarray band
raster is embedded as a map from pixel position to an optional real sample:
none is the missing (NaN / NoData-masked) state produced by
scene.where(scene != 0), and every xarray arithmetic operation acts
elementwise, missing pixels propagating as missing.  Floating-point numbers
are embedded as real numbers.
-/

/-- A pixel position (row, column) of a band raster. -/
abbrev Pixel := Nat × Nat

/-- A band raster: per pixel either a numeric sample or missing (NaN). -/
abbrev Grid := Pixel → Option ℝ

/-- Elementwise application of a scalar function to a raster, as performed
by xarray arithmetic between a DataArray and scalars: missing stays
missing, numeric samples are mapped. -/
def gridMap (f : ℝ → ℝ) (g : Grid) : Grid := fun p => Option.map f (g p)

/-- scene.where(scene != 0): pixels whose raw digital number equals the
NoData sentinel 0 become missing, all others keep their value. -/
noncomputable def maskNoData (g : Pixel → ℝ) : Grid :=
  fun p => if g p = 0 then none else some (g p)

/-- pi = math.pi. -/
noncomputable def pi : ℝ := Real.pi

/-- math.radians: degrees to radians. -/
noncomputable def radians (x : ℝ) : ℝ := x * Real.pi / 180

/-- sun_zenith_angle = 90 - float(sun_elevation_angle). -/
def sun_zenith_angle (sun_elevation_angle : ℝ) : ℝ := 90 - sun_elevation_angle

/-- sun_zenith_angle_rad = math.radians(sun_zenith_angle), as a function of
the sun elevation angle read from the metadata. -/
noncomputable def sun_zenith_angle_rad (e : ℝ) : ℝ := radians (sun_zenith_angle e)

/-- Saturation radiance of band 2 (b2_sr = 53.0). -/
noncomputable def b2_sr : ℝ := 53.0

/-- Saturation radiance of band 3 (b3_sr = 47.0). -/
noncomputable def b3_sr : ℝ := 47.0

/-- Saturation radiance of band 4 (b4_sr = 31.5). -/
noncomputable def b4_sr : ℝ := 31.5

/-- Exo-atmospheric solar irradiance of band 2 (b2_esun = 181.89). -/
noncomputable def b2_esun : ℝ := 181.89

/-- Exo-atmospheric solar irradiance of band 3 (b3_esun = 156.96). -/
noncomputable def b3_esun : ℝ := 156.96

/-- Exo-atmospheric solar irradiance of band 4 (b4_esun = 110.48). -/
noncomputable def b4_esun : ℝ := 110.48

/-- b2_rad = b2_dn*b2_sr/1024, elementwise over the band-2 raster. -/
noncomputable def b2_rad (b2_dn : Grid) : Grid :=
  gridMap (fun dn => dn * b2_sr / 1024) b2_dn

/-- b3_rad = b3_dn*b3_sr/1024, elementwise over the band-3 raster. -/
noncomputable def b3_rad (b3_dn : Grid) : Grid :=
  gridMap (fun dn => dn * b3_sr / 1024) b3_dn

/-- b4_rad = b4_dn*b4_sr/1024, elementwise over the band-4 raster. -/
noncomputable def b4_rad (b4_dn : Grid) : Grid :=
  gridMap (fun dn => dn * b4_sr / 1024) b4_dn

/-- b2_ref = (pi*b2_rad*d*d)/(b2_esun*math.cos(sun_zenith_angle_rad)),
elementwise over the band-2 radiance raster; d is the Earth-Sun distance
and e the sun elevation angle. -/
noncomputable def b2_ref (b2_dn : Grid) (d e : ℝ) : Grid :=
  gridMap (fun rad => (pi * rad * d * d) / (b2_esun * Real.cos (sun_zenith_angle_rad e)))
    (b2_rad b2_dn)

/-- b3_ref = (pi*b3_rad*d*d)/(b3_esun*math.cos(sun_zenith_angle_rad)),
elementwise over the band-3 radiance raster. -/
noncomputable def b3_ref (b3_dn : Grid) (d e : ℝ) : Grid :=
  gridMap (fun rad => (pi * rad * d * d) / (b3_esun * Real.cos (sun_zenith_angle_rad e)))
    (b3_rad b3_dn)

/-- b4_ref = (pi*b4_rad*d*d)/(b4_esun*math.cos(sun_zenith_angle_rad)),
elementwise over the band-4 radiance raster. -/
noncomputable def b4_ref (b4_dn : Grid) (d e : ℝ) : Grid :=
  gridMap (fun rad => (pi * rad * d * d) / (b4_esun * Real.cos (sun_zenith_angle_rad e)))
    (b4_rad b4_dn)

/-- The whole corrected scene at one pixel: the three reflectance bands
computed from the three masked digital-number bands. -/
noncomputable def runPipeline (dn2 dn3 dn4 : Grid) (d e : ℝ) :
    Pixel → Option ℝ × Option ℝ × Option ℝ :=
  fun p => (b2_ref dn2 d e p, b3_ref dn3 d e p, b4_ref dn4 d e p)

/-- Evaluate an output raster pixel by pixel in the given order, recording
the computed values: a model of one chunk-evaluation schedule. -/
def evalInOrder {α : Type} (order : List Pixel) (out : Pixel → α) : List (Pixel × α) :=
  order.map (fun p => (p, out p))

theorem isSpaceChar_ne_eq {c : Char} (h : isSpaceChar c = true) : c ≠ '=' := by
  intro hc
  subst hc
  simp [isSpaceChar] at h

theorem splitOnChar_of_not_mem (sep : Char) {s : Str} (h : sep ∉ s) :
    splitOnChar sep s = [s] := by
  induction s with
  | nil => rfl
  | cons c rest ih =>
    have hc : ¬ c = sep := by
      intro hc
      exact h (hc ▸ List.mem_cons_self c rest)
    have hrest : sep ∉ rest := fun hm => h (List.mem_cons_of_mem c hm)
    simp [splitOnChar, hc, ih hrest]

theorem splitOnChar_append_cons (sep : Char) {k : Str} (rest : Str) (h : sep ∉ k) :
    splitOnChar sep (k ++ sep :: rest) = k :: splitOnChar sep rest := by
  induction k with
  | nil => simp [splitOnChar]
  | cons c k0 ih =>
    have hc : ¬ c = sep := by
      intro hc
      exact h (hc ▸ List.mem_cons_self c k0)
    have hk0 : sep ∉ k0 := fun hm => h (List.mem_cons_of_mem c hm)
    simp only [List.cons_append, splitOnChar, hc, if_false, List.append_eq, ih hk0]

theorem splitOnChar_length (sep : Char) (s : Str) :
    (splitOnChar sep s).length = countChar sep s + 1 := by
  induction s with
  | nil => rfl
  | cons c rest ih =>
    by_cases hc : c = sep
    · simp [splitOnChar, countChar, hc, ih]
      omega
    · cases hsp : splitOnChar sep rest with
      | nil => rw [hsp] at ih; simp at ih
      | cons h t =>
        rw [hsp] at ih
        simp [splitOnChar, countChar, hc, hsp]
        simp at ih
        omega

theorem parseLine_eq_none_iff (line : Str) :
    parseLine line = none ↔ countChar '=' line ≠ 1 := by
  have hlen := splitOnChar_length '=' line
  rcases hsp : splitOnChar '=' line with _ | ⟨a, _ | ⟨b, _ | ⟨c, t⟩⟩⟩
  · rw [hsp] at hlen; simp at hlen
  · rw [hsp] at hlen
    simp at hlen
    simp [parseLine, hsp]
    omega
  · rw [hsp] at hlen
    simp at hlen
    simp [parseLine, hsp]
    omega
  · rw [hsp] at hlen
    simp at hlen
    simp [parseLine, hsp]
    omega

theorem dropWhile_append_all (p : Char → Bool) {w : Str} (s : Str)
    (hw : ∀ c ∈ w, p c = true) :
    List.dropWhile p (w ++ s) = List.dropWhile p s := by
  induction w with
  | nil => rfl
  | cons c w0 ih =>
    have hc : p c = true := hw c (List.mem_cons_self c w0)
    have hw0 : ∀ c ∈ w0, p c = true := fun x hx => hw x (List.mem_cons_of_mem c hx)
    simp [List.dropWhile, hc, ih hw0]

theorem dropWhile_append_of_ne_nil (p : Char → Bool) {s : Str} (w : Str)
    (h : List.dropWhile p s ≠ []) :
    List.dropWhile p (s ++ w) = List.dropWhile p s ++ w := by
  induction s with
  | nil => simp [List.dropWhile] at h
  | cons c s0 ih =>
    cases hc : p c with
    | true =>
      have h0 : List.dropWhile p s0 ≠ [] := by
        simpa [List.dropWhile, hc] using h
      simp [List.dropWhile, hc, ih h0]
    | false => simp [List.dropWhile, hc]

theorem dropWhile_append_of_nil (p : Char → Bool) {s : Str} (w : Str)
    (h : List.dropWhile p s = []) :
    List.dropWhile p (s ++ w) = List.dropWhile p w := by
  induction s with
  | nil => rfl
  | cons c s0 ih =>
    cases hc : p c with
    | true =>
      have h0 : List.dropWhile p s0 = [] := by
        simpa [List.dropWhile, hc] using h
      simp [List.dropWhile, hc, ih h0]
    | false => simp [List.dropWhile, hc] at h

theorem dropWhile_all (p : Char → Bool) {w : Str} (hw : ∀ c ∈ w, p c = true) :
    List.dropWhile p w = [] := by
  have h := dropWhile_append_all p [] hw
  simpa using h

theorem lstrip_append_all {w : Str} (s : Str) (hw : allSpace w) :
    lstrip (w ++ s) = lstrip s :=
  dropWhile_append_all isSpaceChar s hw

theorem rstrip_append_all {w : Str} (s : Str) (hw : allSpace w) :
    rstrip (s ++ w) = rstrip s := by
  unfold rstrip
  rw [List.reverse_append]
  rw [dropWhile_append_all isSpaceChar s.reverse]
  intro c hc
  exact hw c (List.mem_reverse.mp hc)

theorem strip_append_left {w : Str} (s : Str) (hw : allSpace w) :
    strip (w ++ s) = strip s := by
  unfold strip
  rw [lstrip_append_all s hw]

theorem strip_append_right {w : Str} (s : Str) (hw : allSpace w) :
    strip (s ++ w) = strip s := by
  by_cases h : lstrip s = []
  · unfold strip lstrip at h ⊢
    rw [dropWhile_append_of_nil isSpaceChar w h, h]
    rw [dropWhile_all isSpaceChar hw]
  · unfold strip lstrip at h ⊢
    rw [dropWhile_append_of_ne_nil isSpaceChar w h]
    exact rstrip_append_all _ hw

theorem find_append (p : Str × Str → Bool) (l1 l2 : List (Str × Str)) :
    List.find? p (l1 ++ l2) =
      match List.find? p l1 with
      | some x => some x
      | none => List.find? p l2 := by
  induction l1 with
  | nil => simp
  | cons a l0 ih =>
    cases hpa : p a with
    | true => simp [List.find?, hpa]
    | false => simp [List.find?, hpa, ih]

theorem dictGet_insert (m : List (Str × Str)) (k v k' : Str) :
    dictGet (dictInsert m k v) k' = if k = k' then some v else dictGet m k' := by
  induction m with
  | nil => simp [dictInsert, dictGet]
  | cons a rest ih =>
    obtain ⟨k0, v0⟩ := a
    by_cases h0 : k0 = k
    · subst h0
      by_cases hk : k0 = k'
      · subst hk
        simp [dictInsert, dictGet]
      · simp [dictInsert, dictGet, hk]
    · by_cases hk : k0 = k'
      · subst hk
        have hkk : ¬ k = k0 := fun h => h0 h.symm
        simp [dictInsert, dictGet, h0, hkk, ih]
      · simp [dictInsert, dictGet, h0, hk, ih]

theorem parseMetadataAux_get (lines : List Str) : ∀ (m0 m : List (Str × Str)),
    parseMetadataAux m0 lines = some m → ∀ k : Str,
    dictGet m k =
      getFrom (List.find? (fun q => decide (q.1 = k)) (lines.filterMap parseLine).reverse)
        (dictGet m0 k) := by
  induction lines with
  | nil =>
    intro m0 m hm k
    simp [parseMetadataAux] at hm
    subst hm
    simp [getFrom]
  | cons line rest ih =>
    intro m0 m hm k
    cases hpl : parseLine line with
    | none => simp [parseMetadataAux, hpl] at hm
    | some kv =>
      obtain ⟨k0, v0⟩ := kv
      have hrest : parseMetadataAux (dictInsert m0 k0 v0) rest = some m := by
        simpa [parseMetadataAux, hpl] using hm
      have := ih (dictInsert m0 k0 v0) m hrest k
      rw [this]
      simp only [List.filterMap_cons, hpl, List.reverse_cons]
      rw [find_append]
      cases hf : List.find? (fun q => decide (q.1 = k)) (rest.filterMap parseLine).reverse with
      | some q => simp [getFrom]
      | none =>
        by_cases hk : k0 = k
        · subst hk
          simp [getFrom, List.find?, dictGet_insert]
        · simp [getFrom, List.find?, hk, dictGet_insert]

theorem parseMetadataAux_isSome (lines : List Str) : ∀ m : List (Str × Str),
    (parseMetadataAux m lines).isSome = true ↔ ∀ l ∈ lines, parseLine l ≠ none := by
  induction lines with
  | nil => intro m; simp [parseMetadataAux]
  | cons line rest ih =>
    intro m
    cases hpl : parseLine line with
    | none =>
      simp [parseMetadataAux, hpl]
    | some kv =>
      simp only [parseMetadataAux, hpl]
      rw [ih]
      constructor
      · intro h l hl
        rcases List.mem_cons.mp hl with h1 | h1
        · subst h1; simp [hpl]
        · exact h l h1
      · intro h l hl
        exact h l (List.mem_cons_of_mem line hl)

theorem lookup_evalInOrder {α : Type} (out : Pixel → α) :
    ∀ (order : List Pixel) (p : Pixel), p ∈ order →
    List.lookup p (evalInOrder order out) = some (out p) := by
  intro order
  induction order with
  | nil => intro p hp; simp at hp
  | cons q rest ih =>
    intro p hp
    by_cases hpq : p = q
    · subst hpq
      simp [evalInOrder, List.lookup]
    · have hpr : p ∈ rest := by
        rcases List.mem_cons.mp hp with h | h
        · exact absurd h hpq
        · exact h
      have hbeq : (p == q) = false := beq_false_of_ne hpq
      simp [evalInOrder, List.lookup, hbeq]
      simpa [evalInOrder] using ih p hpr

/-- Claim C2, counterexample: a line whose value part contains a further
equals sign is NOT parsed with everything after the first equals sign as
the value; the two-variable unpacking of line.split fails, so the line and
the whole metadata parse produce an error instead. -/
theorem metadata_value_with_eq_fails_cex :
    parseLine ("a=b=c".toList) = none ∧ parseMetadata ["a=b=c".toList] = none :=
  ⟨rfl, rfl⟩

/-- Claim C2 (amended): for every input line containing exactly one equals
sign, the parser splits the line at that sign, trims whitespace from both
resulting sides, and stores the trimmed key/value pair into the mapping;
a line whose value part itself contains an equals sign instead makes the
parse fail. -/
theorem metadata_line_single_eq_parses :
    ∀ (k v : Str) (m : List (Str × Str)) (rest : List Str),
    '=' ∉ k → '=' ∉ v →
    parseLine (k ++ '=' :: v) = some (strip k, strip v) ∧
    parseMetadataAux m ((k ++ '=' :: v) :: rest) =
      parseMetadataAux (dictInsert m (strip k) (strip v)) rest := by
  intro k v m rest hk hv
  have hsp : splitOnChar '=' (k ++ '=' :: v) = [k, v] := by
    rw [splitOnChar_append_cons _ v hk, splitOnChar_of_not_mem _ hv]
  constructor
  · simp [parseLine, hsp]
  · simp [parseMetadataAux, parseLine, hsp]

/-- Witness for the amended claim C2 at a concrete line. -/
theorem metadata_line_single_eq_parses_witness :
    parseLine (['k'] ++ '=' :: [' ', 'v']) = some (strip ['k'], strip [' ', 'v']) ∧
    parseMetadataAux [] ((['k'] ++ '=' :: [' ', 'v']) :: []) =
      parseMetadataAux (dictInsert [] (strip ['k']) (strip [' ', 'v'])) [] :=
  metadata_line_single_eq_parses ['k'] [' ', 'v'] [] [] (by decide) (by decide)

/-- Claim C4: a metadata input containing a line with no equals sign makes
the parser fail with a format error; the error propagates and the parse
produces no (partial) mapping. -/
theorem metadata_line_without_eq_fails :
    ∀ (lines : List Str) (line : Str), line ∈ lines → countChar '=' line = 0 →
    parseMetadata lines = none := by
  intro lines line hmem hcount
  cases h : parseMetadata lines with
  | none => rfl
  | some m =>
    have hs : (parseMetadataAux [] lines).isSome = true := by
      unfold parseMetadata at h
      rw [h]
      rfl
    have hall := (parseMetadataAux_isSome lines []).mp hs
    have hnone : parseLine line = none := (parseLine_eq_none_iff line).mpr (by omega)
    exact absurd hnone (hall line hmem)

/-- Witness for claim C4 at a concrete metadata input. -/
theorem metadata_line_without_eq_fails_witness :
    parseMetadata ["a=1".toList, "noequals".toList] = none :=
  metadata_line_without_eq_fails ["a=1".toList, "noequals".toList] ("noequals".toList)
    (by decide) (by decide)

/-- Claim C10: a line with two or more equals signs makes the whole parse
fail even though the line does contain an equals sign, and the parse
succeeds exactly when every line contains exactly one equals sign. -/
theorem metadata_multiple_eq_fails :
    ∀ (lines : List Str) (line : Str),
    (line ∈ lines → 2 ≤ countChar '=' line → parseMetadata lines = none) ∧
    ((parseMetadata lines).isSome = true ↔ ∀ l ∈ lines, countChar '=' l = 1) := by
  intro lines line
  have hiff : (parseMetadata lines).isSome = true ↔ ∀ l ∈ lines, countChar '=' l = 1 := by
    unfold parseMetadata
    rw [parseMetadataAux_isSome lines []]
    constructor
    · intro h l hl
      by_contra hne
      exact (h l hl) ((parseLine_eq_none_iff l).mpr hne)
    · intro h l hl
      intro hne
      have h0 := (parseLine_eq_none_iff l).mp hne
      have h1 := h l hl
      omega
  constructor
  · intro hmem hcount
    cases h : parseMetadata lines with
    | none => rfl
    | some m =>
      have hs : (parseMetadata lines).isSome = true := by
        rw [h]
        rfl
      have := (hiff.mp hs) line hmem
      omega
  · exact hiff

/-- Witness for claim C10 at concrete metadata inputs. -/
theorem metadata_multiple_eq_fails_witness :
    parseMetadata ["a=b=c".toList] = none ∧
    (parseMetadata ["a=1".toList]).isSome = true :=
  ⟨(metadata_multiple_eq_fails ["a=b=c".toList] ("a=b=c".toList)).1 (by decide) (by decide),
   ((metadata_multiple_eq_fails ["a=1".toList] []).2).mpr (by decide)⟩

/-- Claim C5: for valid metadata text the parser recovers exactly one value
per key, namely the value of the textually last line carrying that key
(last-write-wins), and the recovered value of a line is independent of the
whitespace surrounding the separator and at the line ends. -/
theorem metadata_parser_valid_text :
    (∀ (lines : List Str) (m : List (Str × Str)), parseMetadata lines = some m →
      ∀ k : Str, dictGet m k = lastVal lines k) ∧
    (∀ (k v w1 w2 w3 w4 : Str), allSpace w1 → allSpace w2 → allSpace w3 → allSpace w4 →
      '=' ∉ k → '=' ∉ v →
      parseLine ((w1 ++ (k ++ w2)) ++ '=' :: (w3 ++ (v ++ w4))) = some (strip k, strip v)) := by
  constructor
  · intro lines m hm k
    have h := parseMetadataAux_get lines [] m hm k
    rw [h]
    rfl
  · intro k v w1 w2 w3 w4 h1 h2 h3 h4 hk hv
    have hne1 : '=' ∉ w1 := fun hm => isSpaceChar_ne_eq (h1 _ hm) rfl
    have hne2 : '=' ∉ w2 := fun hm => isSpaceChar_ne_eq (h2 _ hm) rfl
    have hne3 : '=' ∉ w3 := fun hm => isSpaceChar_ne_eq (h3 _ hm) rfl
    have hne4 : '=' ∉ w4 := fun hm => isSpaceChar_ne_eq (h4 _ hm) rfl
    have hleft : '=' ∉ (w1 ++ (k ++ w2)) := by
      intro hm
      rcases List.mem_append.mp hm with h | h
      · exact hne1 h
      · rcases List.mem_append.mp h with h | h
        · exact hk h
        · exact hne2 h
    have hright : '=' ∉ (w3 ++ (v ++ w4)) := by
      intro hm
      rcases List.mem_append.mp hm with h | h
      · exact hne3 h
      · rcases List.mem_append.mp h with h | h
        · exact hv h
        · exact hne4 h
    have hsp := splitOnChar_append_cons '=' (w3 ++ (v ++ w4)) hleft
    rw [splitOnChar_of_not_mem '=' hright] at hsp
    simp only [parseLine, hsp]
    rw [strip_append_left _ h1, strip_append_right _ h2,
      strip_append_left _ h3, strip_append_right _ h4]

/-- Witness for claim C5 at concrete metadata text with a duplicate key and
at a concrete whitespace-padded line. -/
theorem metadata_parser_valid_text_witness :
    dictGet [(['a'], ['2'])] ['a'] = lastVal ["a= 1".toList, "a=2".toList] ['a'] ∧
    parseLine (([' '] ++ (['k'] ++ [])) ++ '=' :: ([' '] ++ (['v'] ++ [' ']))) =
      some (strip ['k'], strip ['v']) :=
  ⟨(metadata_parser_valid_text.1) ["a= 1".toList, "a=2".toList] [(['a'], ['2'])] rfl ['a'],
   (metadata_parser_valid_text.2) ['k'] ['v'] [' '] [] [' '] [' ']
     (by decide) (by decide) (by decide) (by decide) (by decide) (by decide)⟩

/-- Claim C1: for every band in 2, 3, 4, every pixel digital number x,
Earth-Sun distance d and sun elevation angle e, the pipeline computes
radiance = x * SR / 1024 and reflectance =
(pi * radiance * d^2) / (ESUN * cos(radians(90 - e))), elementwise at
every pixel holding a value. -/
theorem liss4_radiance_reflectance_formulas :
    ∀ (dn : Grid) (d e : ℝ) (p : Pixel) (x : ℝ), dn p = some x →
    b2_rad dn p = some (x * b2_sr / 1024) ∧
    b3_rad dn p = some (x * b3_sr / 1024) ∧
    b4_rad dn p = some (x * b4_sr / 1024) ∧
    b2_ref dn d e p =
      some ((Real.pi * (x * b2_sr / 1024) * d ^ 2) / (b2_esun * Real.cos (radians (90 - e)))) ∧
    b3_ref dn d e p =
      some ((Real.pi * (x * b3_sr / 1024) * d ^ 2) / (b3_esun * Real.cos (radians (90 - e)))) ∧
    b4_ref dn d e p =
      some ((Real.pi * (x * b4_sr / 1024) * d ^ 2) / (b4_esun * Real.cos (radians (90 - e)))) := by
  intro dn d e p x h
  refine ⟨?_, ?_, ?_, ?_, ?_, ?_⟩ <;>
    simp [b2_rad, b3_rad, b4_rad, b2_ref, b3_ref, b4_ref, gridMap, h, pi,
      sun_zenith_angle_rad, sun_zenith_angle] <;>
    ring

/-- Witness for claim C1 at a concrete one-valued raster. -/
theorem liss4_radiance_reflectance_formulas_witness :
    b2_rad (fun _ => some 1) (0, 0) = some (1 * b2_sr / 1024) ∧
    b2_ref (fun _ => some 1) 1 45 (0, 0) =
      some ((Real.pi * (1 * b2_sr / 1024) * 1 ^ 2) / (b2_esun * Real.cos (radians (90 - 45)))) := by
  have h := liss4_radiance_reflectance_formulas (fun _ => some 1) 1 45 (0, 0) 1 rfl
  exact ⟨h.1, h.2.2.2.1⟩

/-- Claim C3: a pixel whose raw digital number equals the NoData sentinel 0
is masked to missing before correction and stays missing in every corrected
band, never receiving a numeric reflectance. -/
theorem nodata_pixels_stay_masked :
    ∀ (raw : Pixel → ℝ) (d e : ℝ) (p : Pixel), raw p = 0 →
    maskNoData raw p = none ∧
    b2_ref (maskNoData raw) d e p = none ∧
    b3_ref (maskNoData raw) d e p = none ∧
    b4_ref (maskNoData raw) d e p = none := by
  intro raw d e p h
  have hm : maskNoData raw p = none := by simp [maskNoData, h]
  refine ⟨hm, ?_, ?_, ?_⟩ <;>
    simp [b2_ref, b3_ref, b4_ref, b2_rad, b3_rad, b4_rad, gridMap, hm]

/-- Witness for claim C3 at a concrete all-zero raster. -/
theorem nodata_pixels_stay_masked_witness :
    maskNoData (fun _ => 0) (0, 0) = none ∧
    b2_ref (maskNoData (fun _ => 0)) 1 45 (0, 0) = none ∧
    b3_ref (maskNoData (fun _ => 0)) 1 45 (0, 0) = none ∧
    b4_ref (maskNoData (fun _ => 0)) 1 45 (0, 0) = none :=
  nodata_pixels_stay_masked (fun _ => 0) 1 45 (0, 0) rfl

/-- Claim C6: with date, sun angle and band constants fixed, doubling an
unmasked digital number doubles both the computed radiance and the
computed reflectance, in every band. -/
theorem reflectance_linear_in_dn :
    ∀ (dn1 dn2 : Grid) (d e : ℝ) (p : Pixel) (x : ℝ),
    dn1 p = some x → dn2 p = some (2 * x) →
    b2_rad dn2 p = Option.map (fun r => 2 * r) (b2_rad dn1 p) ∧
    b3_rad dn2 p = Option.map (fun r => 2 * r) (b3_rad dn1 p) ∧
    b4_rad dn2 p = Option.map (fun r => 2 * r) (b4_rad dn1 p) ∧
    b2_ref dn2 d e p = Option.map (fun r => 2 * r) (b2_ref dn1 d e p) ∧
    b3_ref dn2 d e p = Option.map (fun r => 2 * r) (b3_ref dn1 d e p) ∧
    b4_ref dn2 d e p = Option.map (fun r => 2 * r) (b4_ref dn1 d e p) := by
  intro dn1 dn2 d e p x h1 h2
  refine ⟨?_, ?_, ?_, ?_, ?_, ?_⟩ <;>
    simp [b2_rad, b3_rad, b4_rad, b2_ref, b3_ref, b4_ref, gridMap, h1, h2] <;>
    ring

/-- Witness for claim C6 at concrete rasters holding 1 and 2. -/
theorem reflectance_linear_in_dn_witness :
    b2_rad (fun _ => some 2) (0, 0) =
      Option.map (fun r => 2 * r) (b2_rad (fun _ => some 1) (0, 0)) ∧
    b2_ref (fun _ => some 2) 1 45 (0, 0) =
      Option.map (fun r => 2 * r) (b2_ref (fun _ => some 1) 1 45 (0, 0)) := by
  have h := reflectance_linear_in_dn (fun _ => some 1) (fun _ => some 2) 1 45 (0, 0) 1
    rfl (by norm_num)
  exact ⟨h.1, h.2.2.2.1⟩

/-- Claim C7: at sun elevation 0 the cosine of the zenith angle is exactly
0, so each band reflectance divides by a zero denominator; the computation
has no guard or error branch, and in the real-number embedding the
unguarded division by zero still returns a (meaningless) value instead of
a reported error. -/
theorem sun_at_horizon_division_unguarded :
    Real.cos (sun_zenith_angle_rad 0) = 0 ∧
    b2_esun * Real.cos (sun_zenith_angle_rad 0) = 0 ∧
    b3_esun * Real.cos (sun_zenith_angle_rad 0) = 0 ∧
    b4_esun * Real.cos (sun_zenith_angle_rad 0) = 0 ∧
    (∀ (dn : Grid) (d : ℝ) (p : Pixel) (x : ℝ), dn p = some x →
      b2_ref dn d 0 p = some 0 ∧ b3_ref dn d 0 p = some 0 ∧ b4_ref dn d 0 p = some 0) := by
  have hcos : Real.cos (sun_zenith_angle_rad 0) = 0 := by
    have harg : sun_zenith_angle_rad 0 = Real.pi / 2 := by
      unfold sun_zenith_angle_rad radians sun_zenith_angle
      ring
    rw [harg]
    exact Real.cos_pi_div_two
  refine ⟨hcos, by rw [hcos]; ring, by rw [hcos]; ring, by rw [hcos]; ring, ?_⟩
  intro dn d p x h
  refine ⟨?_, ?_, ?_⟩ <;>
    simp [b2_ref, b3_ref, b4_ref, b2_rad, b3_rad, b4_rad, gridMap, h, hcos]

/-- Witness for claim C7 at a concrete raster and distance. -/
theorem sun_at_horizon_division_unguarded_witness :
    b2_ref (fun _ => some 1) 1 0 (0, 0) = some 0 :=
  ((sun_at_horizon_division_unguarded.2.2.2.2) (fun _ => some 1) 1 (0, 0) 1 rfl).1

/-- Claim C8: the corrected scene read off after evaluating its pixels in
any order is the same, and each output pixel of each band depends only on
the corresponding input pixel of that band: the pipeline is a deterministic
pointwise function of its inputs. -/
theorem pipeline_order_independent :
    ∀ (dn2 dn3 dn4 : Grid) (d e : ℝ) (order1 order2 : List Pixel) (p : Pixel),
    p ∈ order1 → p ∈ order2 →
    (List.lookup p (evalInOrder order1 (runPipeline dn2 dn3 dn4 d e)) =
      List.lookup p (evalInOrder order2 (runPipeline dn2 dn3 dn4 d e))) ∧
    (∀ (g g' : Grid), g p = g' p →
      b2_ref g d e p = b2_ref g' d e p ∧
      b3_ref g d e p = b3_ref g' d e p ∧
      b4_ref g d e p = b4_ref g' d e p) := by
  intro dn2 dn3 dn4 d e order1 order2 p h1 h2
  constructor
  · rw [lookup_evalInOrder _ order1 p h1, lookup_evalInOrder _ order2 p h2]
  · intro g g' hg
    refine ⟨?_, ?_, ?_⟩ <;>
      simp [b2_ref, b3_ref, b4_ref, b2_rad, b3_rad, b4_rad, gridMap, hg]

/-- Witness for claim C8 at two concrete evaluation orders of a two-pixel
scene. -/
theorem pipeline_order_independent_witness :
    List.lookup ((0 : Nat), (0 : Nat))
      (evalInOrder [(0, 0), (0, 1)]
        (runPipeline (fun _ => some 1) (fun _ => some 1) (fun _ => some 1) 1 45)) =
    List.lookup (0, 0)
      (evalInOrder [(0, 1), (0, 0)]
        (runPipeline (fun _ => some 1) (fun _ => some 1) (fun _ => some 1) 1 45)) :=
  (pipeline_order_independent (fun _ => some 1) (fun _ => some 1) (fun _ => some 1) 1 45
    [(0, 0), (0, 1)] [(0, 1), (0, 0)] (0, 0) (by decide) (by decide)).1
